import Mathlib

/-!
Shallow embedding of the `glm` crate's logistic and binomial regression
modules (`src/logistic.rs`, `src/binomial.rs`), together with a
spec-modelled view of the IRLS solver, and proofs of the specification
claims about them.

The Rust code is generic over a float type `F: Float + Lapack`; the
embedding mirrors that by working over a `LinearOrderedField F` and by
passing the transcendental operations (`exp`, `ln`) as explicit function
parameters, instantiated with `Real.exp` and `Real.log` in the theorems
(exact arithmetic).
-/

/-- `Model<Logistic, F>` as used by `Logistic::log_likelihood`:
response vector `y` (already converted to floats), design matrix `x`
(list of rows) with its ndarray column count `xNcols`, the optional
per-observation linear offset, and the L2 regularization strength.
Field shapes follow spec section 3 where `model.rs` is outside `src/`. -/
structure Model (F : Type) where
  y : List F
  xNcols : ℕ
  x : List (List F)
  linear_offset : Option (List F)
  l2_reg : F

/-- `data.x.ncols()`. -/
def Model.ncols {F : Type} (m : Model F) : ℕ := m.xNcols

/-- Dot product of a design-matrix row with the coefficient vector. -/
def dotRow {F : Type} [LinearOrderedField F] (row beta : List F) : F :=
  (List.zipWith (· * ·) row beta).sum

/-- `ln_1p(v) = ln(1 + v)`, as in `num_traits::Float::ln_1p`. -/
def ln_1p {F : Type} [LinearOrderedField F] (flog : F → F) (v : F) : F := flog (1 + v)

/-- The linear predictor `data.x.dot(regressors)` plus the linear offset
when one is set (logistic.rs lines 61-67; spec section 4.4). -/
def linear_predictor {F : Type} [LinearOrderedField F]
    (m : Model F) (beta : List F) : List F :=
  let lp := m.x.map (fun row => dotRow row beta)
  match m.linear_offset with
  | some off => List.zipWith (· + ·) lp off
  | none => lp

/-- The argument the logistic per-observation computation passes to `exp`:
`xt = wx` when `wx < 0`, else `xt = -wx` (logistic.rs lines 77-81). -/
def Logistic.expArg {F : Type} [LinearOrderedField F] (wx : F) : F :=
  if wx < 0 then wx else -wx

/-- One term of the logistic log-likelihood sum (logistic.rs lines 74-83):
`(yt, xt) = (y, wx)` if `wx < 0` else `(1 - y, -wx)`, and the term is
`yt * xt - ln_1p(exp(xt))`. -/
def Logistic.logLikeTerm {F : Type} [LinearOrderedField F]
    (fexp flog : F → F) (y wx : F) : F :=
  let yt : F := if wx < 0 then y else 1 - y
  let xt : F := Logistic.expArg wx
  yt * xt - ln_1p flog (fexp xt)

/-- `Logistic::log_likelihood` (logistic.rs lines 52-90).  The
`assert_eq!(data.x.ncols(), regressors.len(), ..)` panic is modelled by
returning `none`; on matching dimensions the function returns `some` of
the sum of the per-observation terms plus the L2 term. -/
def Logistic.log_likelihood {F : Type} [LinearOrderedField F]
    (fexp flog : F → F) (data : Model F) (regressors : List F) : Option F :=
  if data.ncols = regressors.length then
    let lp := linear_predictor data regressors
    let log_like_terms := List.zipWith (Logistic.logLikeTerm fexp flog) data.y lp
    let l2_term : F :=
      if data.l2_reg = 0 then 0
      else -(1 / 2) * data.l2_reg * (regressors.map (fun b => b * b)).sum
    some (log_like_terms.sum + l2_term)
  else
    none

/-- `Logistic::quasi_log_likelihood` (logistic.rs lines 45-47): delegates
to `Logistic::log_likelihood`. -/
def Logistic.quasi_log_likelihood {F : Type} [LinearOrderedField F]
    (fexp flog : F → F) (data : Model F) (regressors : List F) : Option F :=
  Logistic.log_likelihood fexp flog data regressors

/-- The unpenalized family log-likelihood: the sum of the per-observation
logistic terms, with no L2 contribution. -/
def Logistic.family_log_like {F : Type} [LinearOrderedField F]
    (fexp flog : F → F) (data : Model F) (regressors : List F) : F :=
  (List.zipWith (Logistic.logLikeTerm fexp flog) data.y
    (linear_predictor data regressors)).sum

/-- The logit link function (logistic.rs lines 31-33). -/
def Logistic.link {F : Type} [LinearOrderedField F] (flog : F → F) (y : F) : F :=
  flog (y / (1 - y))

/-- The inverse link (expit) `(1 + exp(-lin_pred))⁻¹` (logistic.rs 36-38). -/
def Logistic.mean {F : Type} [LinearOrderedField F] (fexp : F → F) (lin_pred : F) : F :=
  (1 + fexp (-lin_pred))⁻¹

/-- Logistic variance `mu * (1 - mu)` (logistic.rs lines 41-43). -/
def Logistic.variance {F : Type} [LinearOrderedField F] (mean : F) : F :=
  mean * (1 - mean)

-- Helper lemmas ------------------------------------------------------------

/-- `log (1 + e^x) = x + log (1 + e^(-x))` over the reals. -/
theorem log_one_add_exp (x : ℝ) :
    Real.log (1 + Real.exp x) = x + Real.log (1 + Real.exp (-x)) := by
  have h1 : (1 : ℝ) + Real.exp x = Real.exp x * (1 + Real.exp (-x)) := by
    rw [mul_add, mul_one, ← Real.exp_add]
    rw [add_neg_cancel, Real.exp_zero]
    ring
  have hpos : (0 : ℝ) < 1 + Real.exp (-x) := by positivity
  rw [h1, Real.log_mul (Real.exp_ne_zero x) (ne_of_gt hpos), Real.log_exp]

-- Binomial family (src/binomial.rs) -----------------------------------------

/-- Modelled from the spec: `link::Logit::nat_param` lives in the crate's
`link` module, which is not under `src/`.  For a canonical link the
natural parameter equals the linear predictor (spec sections 4.2 and
glossary), so `nat_param` is the identity. -/
def natParam {F : Type} (lin_pred : List F) : List F := lin_pred

/-- `Binomial::<N>::log_like_params` (binomial.rs lines 38-49):
`(y * eta).sum() - N * eta.mapv(exp).mapv(ln_1p).sum()` where
`eta = Logit::nat_param(lin_pred)`. -/
def Binomial.log_like_params {F : Type} [LinearOrderedField F]
    (fexp flog : F → F) (N : ℕ) (y lin_pred : List F) : F :=
  let eta := natParam lin_pred
  (List.zipWith (· * ·) y eta).sum
    - (N : F) * ((eta.map fexp).map (ln_1p flog)).sum

/-- The list of arguments `Binomial::log_like_params` passes to `exp`:
the code maps `Float::exp` directly over `eta = nat_param(lin_pred)`
(binomial.rs line 47), with no branch on the sign. -/
def Binomial.expArgs {F : Type} (lin_pred : List F) : List F :=
  natParam lin_pred

/-- Binomial variance `mean * (N - mean) / N` (binomial.rs lines 31-34). -/
def Binomial.variance {F : Type} [LinearOrderedField F] (N : ℕ) (mean : F) : F :=
  mean * ((N : F) - mean) / (N : F)

/-- `Logit::func` for `Binomial<N>`: `y ↦ ln(y / (N - y))`
(binomial.rs lines 60-63). -/
def Logit.func {F : Type} [LinearOrderedField F] (flog : F → F) (N : ℕ) (y : F) : F :=
  flog (y / ((N : F) - y))

/-- `Logit::func_inv` for `Binomial<N>`: `xb ↦ N / (1 + exp(-xb))`
(binomial.rs lines 64-67). -/
def Logit.func_inv {F : Type} [LinearOrderedField F] (fexp : F → F) (N : ℕ) (xb : F) : F :=
  (N : F) / (1 + fexp (-xb))

-- C2 -------------------------------------------------------------------------

/-- C2: the two sign branches of the logistic per-observation
log-likelihood term are mathematically identical: for every response `y`
and linear predictor `wx`, the branched term equals
`y * wx - ln(1 + exp wx)` in exact arithmetic. -/
theorem logistic_branches_equal (y wx : ℝ) :
    Logistic.logLikeTerm Real.exp Real.log y wx
      = y * wx - Real.log (1 + Real.exp wx) := by
  unfold Logistic.logLikeTerm Logistic.expArg ln_1p
  by_cases h : wx < 0
  · simp [h]
  · simp only [h, if_false]
    rw [log_one_add_exp wx]
    ring

-- C3 helper lemmas -----------------------------------------------------------

theorem expit_logit_id (p : ℝ) (h0 : 0 < p) (h1 : p < 1) :
    Logistic.mean Real.exp (Logistic.link Real.log p) = p := by
  unfold Logistic.mean Logistic.link
  have h1p : (0:ℝ) < 1 - p := by linarith
  have hq : 0 < p / (1 - p) := div_pos h0 h1p
  rw [Real.exp_neg, Real.exp_log hq, inv_div]
  have hp : p ≠ 0 := ne_of_gt h0
  have key : 1 + (1 - p) / p = p⁻¹ := by field_simp
  rw [key, inv_inv]

theorem logit_expit_id (x : ℝ) :
    Logistic.link Real.log (Logistic.mean Real.exp x) = x := by
  unfold Logistic.link Logistic.mean
  have hx : Real.exp x ≠ 0 := Real.exp_ne_zero x
  have hxp : (0:ℝ) < Real.exp x := Real.exp_pos x
  have hm : (1 + Real.exp (-x))⁻¹ = Real.exp x / (1 + Real.exp x) := by
    rw [Real.exp_neg]
    have h1 : (0:ℝ) < 1 + (Real.exp x)⁻¹ := by positivity
    field_simp
    ring
  rw [hm]
  have h2 : (0:ℝ) < 1 + Real.exp x := by positivity
  have key : Real.exp x / (1 + Real.exp x) / (1 - Real.exp x / (1 + Real.exp x))
      = Real.exp x := by
    field_simp
  rw [key, Real.log_exp]

theorem binLogit_inv_func_id (N : ℕ) (y : ℝ) (h0 : 0 < y) (h1 : y < (N:ℝ)) :
    Logit.func_inv Real.exp N (Logit.func Real.log N y) = y := by
  unfold Logit.func Logit.func_inv
  have hNy : (0:ℝ) < (N:ℝ) - y := by linarith
  have hq : 0 < y / ((N:ℝ) - y) := div_pos h0 hNy
  rw [Real.exp_neg, Real.exp_log hq, inv_div]
  have hy : y ≠ 0 := ne_of_gt h0
  have hNr : (0:ℝ) < (N:ℝ) := lt_trans h0 h1
  have key : 1 + ((N:ℝ) - y) / y = (N:ℝ) / y := by field_simp
  rw [key, div_div_eq_mul_div, mul_comm, mul_div_assoc, div_self (ne_of_gt hNr),
    mul_one]

theorem binLogit_func_inv_id (N : ℕ) (hN : 0 < N) (x : ℝ) :
    Logit.func Real.log N (Logit.func_inv Real.exp N x) = x := by
  unfold Logit.func Logit.func_inv
  have hNr : (0:ℝ) < (N:ℝ) := by exact_mod_cast hN
  have hN0 : (N:ℝ) ≠ 0 := ne_of_gt hNr
  have hxp : (0:ℝ) < Real.exp x := Real.exp_pos x
  have hx0 : Real.exp x ≠ 0 := ne_of_gt hxp
  have key : (N:ℝ) / (1 + Real.exp (-x)) / ((N:ℝ) - (N:ℝ) / (1 + Real.exp (-x)))
      = Real.exp x := by
    rw [Real.exp_neg]
    have hd2 : (0:ℝ) < 1 + (Real.exp x)⁻¹ := by positivity
    have he1 : Real.exp x + 1 ≠ 0 := by positivity
    have hm : (N:ℝ) / (1 + (Real.exp x)⁻¹) = (N:ℝ) * Real.exp x / (Real.exp x + 1) := by
      field_simp
    have hsub : (N:ℝ) - (N:ℝ) * Real.exp x / (Real.exp x + 1) = (N:ℝ) / (Real.exp x + 1) := by
      field_simp
      ring
    rw [hm, hsub, div_div_div_cancel_right₀ he1, mul_comm,
      mul_div_assoc, div_self hN0, mul_one]
  rw [key, Real.log_exp]

-- C3 -------------------------------------------------------------------------

/-- C3 (counterexample): with trial count `N = 0` the binomial round trip
`func (func_inv eta) = eta` fails at `eta = 1`: `func_inv 0 1 = 0 / (1 + exp (-1)) = 0`
and `func 0 0 = log (0 / (0 - 0)) = log 0 = 0 ≠ 1` (in the Rust code the same
input produces `0.0 / 0.0 = NaN`, not `1`). -/
theorem binomial_roundtrip_fails_N0 :
    Logit.func Real.log 0 (Logit.func_inv Real.exp 0 1) ≠ 1 := by
  unfold Logit.func Logit.func_inv
  norm_num [Real.log_zero]

/-- C3 (amended): the links and inverse links are mutual inverses over the
valid mean range — for the logistic family `mean (link p) = p` whenever
`0 < p < 1` and `link (mean eta) = eta` for every `eta`; for the binomial
family with trial count `N > 0`, `func_inv (func y) = y` whenever
`0 < y < N` and `func (func_inv eta) = eta` for every `eta` — in exact
arithmetic. -/
theorem links_mutually_inverse (N : ℕ) (p y e₁ e₂ : ℝ)
    (hN : 0 < N) (hp0 : 0 < p) (hp1 : p < 1) (hy0 : 0 < y) (hy1 : y < (N:ℝ)) :
    Logistic.mean Real.exp (Logistic.link Real.log p) = p ∧
    Logistic.link Real.log (Logistic.mean Real.exp e₁) = e₁ ∧
    Logit.func_inv Real.exp N (Logit.func Real.log N y) = y ∧
    Logit.func Real.log N (Logit.func_inv Real.exp N e₂) = e₂ :=
  ⟨expit_logit_id p hp0 hp1, logit_expit_id e₁,
    binLogit_inv_func_id N y hy0 hy1, binLogit_func_inv_id N hN e₂⟩

/-- Witness for `links_mutually_inverse` at `N = 1`, `p = y = 1/2`,
`e₁ = e₂ = 0`. -/
theorem links_mutually_inverse_witness :
    Logistic.mean Real.exp (Logistic.link Real.log (1/2)) = 1/2 ∧
    Logistic.link Real.log (Logistic.mean Real.exp 0) = 0 ∧
    Logit.func_inv Real.exp 1 (Logit.func Real.log 1 (1/2)) = 1/2 ∧
    Logit.func Real.log 1 (Logit.func_inv Real.exp 1 0) = 0 :=
  links_mutually_inverse 1 (1/2) (1/2) 0 0 (by norm_num) (by norm_num)
    (by norm_num) (by norm_num) (by norm_num)

-- C4 -------------------------------------------------------------------------

/-- C4: for every mean value `m`, the binomial variance with trial count
`N` is exactly `m * (N - m) / N`. -/
theorem binomial_variance_formula (N : ℕ) (m : ℝ) :
    Binomial.variance N m = m * ((N:ℝ) - m) / (N:ℝ) := rfl

-- C6 -------------------------------------------------------------------------

/-- C6: the variance function is strictly positive strictly inside the
support: `Logistic.variance m₁ > 0` for `0 < m₁ < 1`, and
`Binomial.variance N m₂ > 0` for `0 < m₂ < N` with `N > 0`. -/
theorem variance_pos_inside_support (N : ℕ) (m₁ m₂ : ℝ)
    (h₁ : 0 < m₁) (h₂ : m₁ < 1) (hN : 0 < N) (h₃ : 0 < m₂) (h₄ : m₂ < (N:ℝ)) :
    0 < Logistic.variance m₁ ∧ 0 < Binomial.variance N m₂ := by
  constructor
  · exact mul_pos h₁ (by linarith)
  · unfold Binomial.variance
    have hNr : (0:ℝ) < (N:ℝ) := by exact_mod_cast hN
    exact div_pos (mul_pos h₃ (by linarith)) hNr

/-- Witness for `variance_pos_inside_support` at `N = 1`, `m₁ = m₂ = 1/2`. -/
theorem variance_pos_inside_support_witness :
    0 < Logistic.variance (1/2 : ℝ) ∧ 0 < Binomial.variance 1 (1/2 : ℝ) :=
  variance_pos_inside_support 1 (1/2) (1/2) (by norm_num) (by norm_num)
    (by norm_num) (by norm_num) (by norm_num)

-- C7 helper ------------------------------------------------------------------

/-- Adding a zero vector of matching length elementwise is the identity. -/
theorem zipWith_add_replicate_zero {F : Type} [LinearOrderedField F] :
    ∀ l : List F, List.zipWith (· + ·) l (List.replicate l.length 0) = l
  | [] => rfl
  | a :: l => by
    simp only [List.length_cons, List.replicate_succ, List.zipWith_cons_cons,
      add_zero, zipWith_add_replicate_zero l]

-- C5 -------------------------------------------------------------------------

/-- C5: on matching dimensions the evaluated objective equals the family
log-likelihood minus `0.5 * l2_penalty * Σ beta²` when `l2_penalty > 0`,
and the unpenalized family log-likelihood when `l2_penalty = 0`. -/
theorem objective_l2_decomposition (m : Model ℝ) (beta : List ℝ)
    (h : m.ncols = beta.length) :
    (0 < m.l2_reg →
      Logistic.log_likelihood Real.exp Real.log m beta
        = some (Logistic.family_log_like Real.exp Real.log m beta
            - 1 / 2 * m.l2_reg * (beta.map (fun b => b * b)).sum)) ∧
    (m.l2_reg = 0 →
      Logistic.log_likelihood Real.exp Real.log m beta
        = some (Logistic.family_log_like Real.exp Real.log m beta)) := by
  constructor
  · intro hl2
    have hne : m.l2_reg ≠ 0 := ne_of_gt hl2
    simp only [Logistic.log_likelihood, Logistic.family_log_like, h, if_true,
      hne, if_false, Option.some.injEq]
    ring
  · intro hl2
    simp only [Logistic.log_likelihood, Logistic.family_log_like, h, if_true,
      hl2, if_true, Option.some.injEq, add_zero]

/-- Witness for `objective_l2_decomposition` on the empty model with
`l2_reg = 1`. -/
theorem objective_l2_decomposition_witness :
    Logistic.log_likelihood Real.exp Real.log ⟨[], 0, [], none, 1⟩ []
      = some (Logistic.family_log_like Real.exp Real.log ⟨[], 0, [], none, 1⟩ []
          - 1 / 2 * (1:ℝ) * (List.map (fun b => b * b) ([] : List ℝ)).sum) :=
  (objective_l2_decomposition ⟨[], 0, [], none, 1⟩ [] rfl).1 (by norm_num)

-- C7 -------------------------------------------------------------------------

/-- C7: evaluating the logistic log-likelihood with a linear offset of all
zeros gives exactly the same result as evaluating with no offset, for
every design matrix, response, penalty and coefficient vector. -/
theorem zero_offset_pass_through (y : List ℝ) (nc : ℕ) (x : List (List ℝ))
    (l2 : ℝ) (beta : List ℝ) :
    Logistic.log_likelihood Real.exp Real.log
        ⟨y, nc, x, some (List.replicate x.length 0), l2⟩ beta
      = Logistic.log_likelihood Real.exp Real.log ⟨y, nc, x, none, l2⟩ beta := by
  have hlp : linear_predictor
        (⟨y, nc, x, some (List.replicate x.length 0), l2⟩ : Model ℝ) beta
      = linear_predictor (⟨y, nc, x, none, l2⟩ : Model ℝ) beta := by
    unfold linear_predictor
    dsimp only
    have h := zipWith_add_replicate_zero (List.map (fun row => dotRow row beta) x)
    rw [List.length_map] at h
    exact h
  simp only [Logistic.log_likelihood, Model.ncols, hlp]

-- C9 -------------------------------------------------------------------------

/-- C9: the dimension assertion in `Logistic::log_likelihood` — the
function returns a value exactly when the number of design-matrix columns
equals the length of the coefficient vector, and panics (modelled as
`none`) on every mismatched pair. -/
theorem log_likelihood_assert_dimensions (m : Model ℝ) (beta : List ℝ) :
    (Logistic.log_likelihood Real.exp Real.log m beta).isSome
      ↔ m.ncols = beta.length := by
  unfold Logistic.log_likelihood
  by_cases h : m.ncols = beta.length
  · simp [h]
  · simp [h]

-- C10 ------------------------------------------------------------------------

/-- C10: `Logistic::quasi_log_likelihood` returns exactly the value of
`Logistic::log_likelihood` on every model and coefficient vector. -/
theorem quasi_equals_log_likelihood (m : Model ℝ) (beta : List ℝ) :
    Logistic.quasi_log_likelihood Real.exp Real.log m beta
      = Logistic.log_likelihood Real.exp Real.log m beta := rfl

-- C1 -------------------------------------------------------------------------

/-- C1 (code-bug evidence): `Binomial::log_like_params` applies `exp`
naively to the raw natural parameter (equal to the linear predictor for
the canonical logit link) with no branch on its sign: for any `exp`/`ln`
operations, at linear predictor `710` the computation is exactly
`0 * 710 - 1 * (ln_1p (exp 710) + 0)`, i.e. `exp` receives `710` itself
(in `f64`, `exp 710` overflows to `+inf`).  By contrast the logistic
computation's branch only ever passes a nonpositive argument to `exp`. -/
theorem binomial_log_like_naive_exp :
    (∀ fexp flog : ℝ → ℝ, Binomial.log_like_params fexp flog 1 [0] [710]
        = 0 * 710 - 1 * (ln_1p flog (fexp 710) + 0))
      ∧ Binomial.expArgs (F := ℝ) [710] = [710]
      ∧ ¬ ((710:ℝ) ≤ 0)
      ∧ ∀ wx : ℝ, Logistic.expArg wx ≤ 0 := by
  refine ⟨?_, rfl, by norm_num, ?_⟩
  · intro fexp flog
    simp [Binomial.log_like_params, natParam]
  · intro wx
    by_cases h : wx < 0
    · simp only [Logistic.expArg, if_pos h]
      exact le_of_lt h
    · simp only [Logistic.expArg, if_neg h]
      exact neg_nonpos.mpr (le_of_not_lt h)

-- IRLS solver, modelled from the spec --------------------------------------

/-- Modelled from the spec: the fit configuration (spec section 6) — the
convergence tolerance, the maximum number of outer iterations, and the
maximum number of step-halving attempts per step.  The solver itself
(`fit`/`irls` modules) is not under `src/`. -/
structure IrlsConfig (F : Type) where
  tolerance : F
  max_iterations : ℕ
  max_halvings : ℕ

/-- Modelled from the spec: a fit outcome — converged coefficients, a
graceful non-convergence report when the outer-iteration budget runs out,
or a step-halving-exhaustion failure (spec sections 4.5-4.6, 7). -/
inductive IrlsOutcome (F : Type) where
  | converged (coefficients : List F) (n : ℕ)
  | maxIterReached (coefficients : List F) (n : ℕ)
  | stepHalvingFailed (coefficients : List F) (n : ℕ)

/-- The number of outer IRLS iterations consumed by an outcome. -/
def IrlsOutcome.n_iter {F : Type} : IrlsOutcome F → ℕ
  | converged _ n => n
  | maxIterReached _ n => n
  | stepHalvingFailed _ n => n

/-- Modelled from the spec: one halving moves half-way from the previous
coefficients toward the current candidate, yielding the fractions
1/2, 1/4, 1/8, ... of the full step (spec section 4.5, step 5). -/
def halveStep {F : Type} [LinearOrderedField F] (prev cand : List F) : List F :=
  List.zipWith (fun a b => (a + b) / 2) prev cand

/-- Modelled from the spec: the step-halving line search (spec section
4.5, step 5): evaluate the objective `L` at the candidate; accept on a
strict increase over `l0`, otherwise halve and retry, with at most `fuel`
halvings.  Returns the accepted coefficients and objective (`none` on
exhaustion) paired with the number of halvings performed. -/
def stepHalving {F : Type} [LinearOrderedField F] (L : List F → F)
    (prev : List F) (l0 : F) : ℕ → List F → Option (List F × F) × ℕ
  | 0, cand => if l0 < L cand then (some (cand, L cand), 0) else (none, 0)
  | Nat.succ f, cand =>
    if l0 < L cand then (some (cand, L cand), 0)
    else
      let r := stepHalving L prev l0 f (halveStep prev cand)
      (r.1, r.2 + 1)

/-- Modelled from the spec: the outer IRLS loop (spec section 4.5).
`next` abstracts the weighted penalized least-squares solve that produces
the full-step candidate from the current coefficients (steps 2-4); the
loop runs step-halving, then checks relative-improvement convergence, for
at most `fuel` outer iterations (`n` counts iterations consumed). -/
def irlsLoop {F : Type} [LinearOrderedField F] (L : List F → F)
    (next : List F → List F) (tol : F) (maxHalv : ℕ) :
    ℕ → ℕ → List F → F → IrlsOutcome F
  | 0, n, beta, _ => .maxIterReached beta n
  | Nat.succ fuel, n, beta, l0 =>
    match (stepHalving L beta l0 maxHalv (next beta)).1 with
    | none => .stepHalvingFailed beta (n + 1)
    | some (beta1, l1) =>
      if l1 - l0 ≤ tol * |l0| then .converged beta1 (n + 1)
      else irlsLoop L next tol maxHalv fuel (n + 1) beta1 l1

/-- Modelled from the spec: the solver entry point — run the outer loop
from a starting coefficient vector with the configured bounds (spec
section 4.5, steps 1 and 6). -/
def irls {F : Type} [LinearOrderedField F] (cfg : IrlsConfig F)
    (L : List F → F) (next : List F → List F) (beta0 : List F) : IrlsOutcome F :=
  irlsLoop L next cfg.tolerance cfg.max_halvings cfg.max_iterations 0 beta0 (L beta0)

/-- The step-halving search performs at most `fuel` halvings. -/
theorem stepHalving_halvings_le {F : Type} [LinearOrderedField F]
    (L : List F → F) (prev : List F) (l0 : F) :
    ∀ (fuel : ℕ) (cand : List F), (stepHalving L prev l0 fuel cand).2 ≤ fuel := by
  intro fuel
  induction fuel with
  | zero =>
    intro cand
    unfold stepHalving
    split <;> simp
  | succ f ih =>
    intro cand
    unfold stepHalving
    split
    · simp
    · simpa using ih (halveStep prev cand)

/-- The outer loop consumes at most `n + fuel` iterations. -/
theorem irlsLoop_n_iter_le {F : Type} [LinearOrderedField F] (L : List F → F)
    (next : List F → List F) (tol : F) (maxHalv : ℕ) :
    ∀ (fuel n : ℕ) (beta : List F) (l0 : F),
      (irlsLoop L next tol maxHalv fuel n beta l0).n_iter ≤ n + fuel := by
  intro fuel
  induction fuel with
  | zero =>
    intro n beta l0
    simp [irlsLoop, IrlsOutcome.n_iter]
  | succ f ih =>
    intro n beta l0
    unfold irlsLoop
    cases h : (stepHalving L beta l0 maxHalv (next beta)).1 with
    | none =>
      simp [IrlsOutcome.n_iter]
    | some p =>
      obtain ⟨beta1, l1⟩ := p
      by_cases hc : l1 - l0 ≤ tol * |l0|
      · simp [hc, IrlsOutcome.n_iter]
      · simp only [hc, if_false]
        have := ih (n + 1) beta1 l1
        omega

-- C8 -------------------------------------------------------------------------

/-- C8: the IRLS solver terminates within the configured bounds for every
objective, candidate-step function, starting coefficients and
configuration — hence in particular for any input model: the returned
outcome consumes at most `max_iterations` outer iterations, and every
step-halving search performs at most `max_halvings` halvings. -/
theorem irls_bounded_termination (cfg : IrlsConfig ℝ) (L : List ℝ → ℝ)
    (next : List ℝ → List ℝ) (beta0 : List ℝ) :
    (irls cfg L next beta0).n_iter ≤ cfg.max_iterations
      ∧ ∀ (prev cand : List ℝ) (l0 : ℝ),
          (stepHalving L prev l0 cfg.max_halvings cand).2 ≤ cfg.max_halvings := by
  constructor
  · have h := irlsLoop_n_iter_le L next cfg.tolerance cfg.max_halvings
      cfg.max_iterations 0 beta0 (L beta0)
    simpa [irls] using h
  · intro prev cand l0
    exact stepHalving_halvings_le L prev l0 cfg.max_halvings cand
